import Mathlib

/-!
Verification of the macrocredit signal-to-position backtest engine and its
performance-metrics calculator.

The definitions below are a shallow embedding of the Python sources:
  * `src/aponyx/backtest/engine.py`   (`run_backtest`)
  * `src/macrocredit/backtest/config.py`  (`BacktestConfig.__post_init__`)
  * `src/macrocredit/backtest/metrics.py` (`compute_performance_metrics`)
Floating-point numbers are modelled as rationals (`ℚ`); the only real-number
ingredient is `Real.sqrt`, used where the Python code calls `np.sqrt` or the
pandas sample standard deviation.  A pandas `NaN` standard deviation (sample
size one) is modelled as `0`: both send the `std > 0` guards of the source to
their else branch.  Date-indexed pandas series are modelled as association
lists from a date key to an optional value (`none` = missing/NaN), plus a flag
recording whether the index is a `DatetimeIndex`.
-/

namespace MacroCredit

set_option maxRecDepth 10000

attribute [local semireducible] Rat.add Rat.mul Rat.sub Rat.inv Rat.ofScientific

/-- Embedding of `BacktestConfig` (config.py): the frozen dataclass with its
default field values (`1.5`, `0.75`, `10.0`, `1.0`, `None`, `4750.0`). -/
structure BacktestConfig where
  entry_threshold : ℚ := 3/2
  exit_threshold : ℚ := 3/4
  position_size : ℚ := 10
  transaction_cost_bps : ℚ := 1
  max_holding_days : Option ℕ := none
  dv01_per_million : ℚ := 4750
deriving DecidableEq, Repr

/-- Embedding of `BacktestConfig.__post_init__` (config.py lines 47-59): the
validation run at construction time.  A Python `ValueError` is modelled as
`Except.error` carrying the message prefix. -/
def mkBacktestConfig (c : BacktestConfig) : Except String BacktestConfig :=
  if c.entry_threshold ≤ c.exit_threshold then
    Except.error "entry_threshold must be > exit_threshold"
  else if c.position_size ≤ 0 then
    Except.error "position_size must be positive"
  else if c.transaction_cost_bps < 0 then
    Except.error "transaction_cost_bps must be non-negative"
  else Except.ok c

/-- The mutable loop state of `run_backtest` (engine.py lines 128-130):
`current_position`, `days_held`, `entry_spread`. -/
structure EngineState where
  current_position : ℤ
  days_held : ℕ
  entry_spread : ℚ
deriving DecidableEq, Repr

/-- Initial loop state of `run_backtest`: flat, zero days held, zero entry
spread. -/
def initState : EngineState := ⟨0, 0, 0⟩

/-- One per-date output row of `run_backtest`: the position record (engine.py
lines 193-201) and the P&L record (lines 204-211) for that date, with the
two transaction-cost components kept separate so that the cost invariants can
be stated. -/
structure DayRecord where
  signal : ℚ
  position : ℤ
  days_held : ℕ
  spread : ℚ
  spread_pnl : ℚ
  entry_cost : ℚ
  exit_cost : ℚ
  cost : ℚ
  net_pnl : ℚ
deriving DecidableEq, Repr, Inhabited

/-- Transaction cost charged on an entry or an exit (engine.py lines 151,
168): `transaction_cost_bps * position_size * 100`. -/
def entryExitCost (config : BacktestConfig) : ℚ :=
  config.transaction_cost_bps * config.position_size * 100

/-- The time-based part of the exit condition (engine.py lines 162-164):
`max_holding_days is not None and days_held >= max_holding_days`. -/
def exitTimeCond (o : Option ℕ) (d : ℕ) : Prop :=
  ∃ m, o = some m ∧ m ≤ d

instance (o : Option ℕ) (d : ℕ) : Decidable (exitTimeCond o d) :=
  match o with
  | some m =>
    decidable_of_iff (m ≤ d)
      (by constructor
          · intro h; exact ⟨m, rfl, h⟩
          · rintro ⟨m2, hm, h⟩; cases hm; exact h)
  | none => isFalse (by rintro ⟨m, hm, _⟩; cases hm)

/-- The position-transition block of the loop body (engine.py lines 144-170):
from the state at the start of a date and the observed signal/spread it
returns the updated state together with the entry cost and the exit cost
charged on that date. -/
def transition (config : BacktestConfig) (st : EngineState)
    (signal spread_level : ℚ) : EngineState × ℚ × ℚ :=
  if st.current_position = 0 then
    if signal > config.entry_threshold then
      (⟨1, 0, spread_level⟩, entryExitCost config, 0)
    else if signal < -config.entry_threshold then
      (⟨-1, 0, spread_level⟩, entryExitCost config, 0)
    else (st, 0, 0)
  else
    if |signal| < config.exit_threshold ∨
        exitTimeCond config.max_holding_days (st.days_held + 1) then
      (⟨0, 0, st.entry_spread⟩, 0, entryExitCost config)
    else (⟨st.current_position, st.days_held + 1, st.entry_spread⟩, 0, 0)

/-- One iteration of the `run_backtest` loop (engine.py lines 132-211): the
transition is applied, and the spread P&L is computed from the position and
entry spread as they stood at the start of the date (lines 140-142, 172-190).
Returns the updated state and the emitted per-date record. -/
def step (config : BacktestConfig) (st : EngineState)
    (signal spread_level : ℚ) : EngineState × DayRecord :=
  let t := transition config st signal spread_level
  let spread_pnl : ℚ :=
    if st.current_position ≠ 0 then
      -(st.current_position : ℚ) * (spread_level - st.entry_spread)
        * config.dv01_per_million * config.position_size
    else 0
  (t.1,
    { signal := signal
      position := t.1.current_position
      days_held := t.1.days_held
      spread := spread_level
      spread_pnl := spread_pnl
      entry_cost := t.2.1
      exit_cost := t.2.2
      cost := t.2.1 + t.2.2
      net_pnl := spread_pnl - (t.2.1 + t.2.2) })

/-- The `for date, row in aligned.iterrows()` loop of `run_backtest` as a
fold over the aligned (signal, spread) rows, also exposing the state entering
each date. -/
def runFrom (config : BacktestConfig) (st : EngineState) :
    List (ℚ × ℚ) → List (EngineState × DayRecord)
  | [] => []
  | (signal, spread_level) :: rest =>
    let r := step config st signal spread_level
    (st, r.2) :: runFrom config r.1 rest

/-- The per-date output records of `run_backtest` over aligned rows, starting
from the initial flat state. -/
def runRecords (config : BacktestConfig) (rows : List (ℚ × ℚ)) :
    List DayRecord :=
  (runFrom config initState rows).map Prod.snd

/-- Running total, mirroring `pnl_df["net_pnl"].cumsum()` (engine.py
line 216). -/
def cumsum (acc : ℚ) : List ℚ → List ℚ
  | [] => []
  | x :: xs => (acc + x) :: cumsum (acc + x) xs

/-- Entry count of a position path (engine.py lines 219-221): the previous
position is the sequence shifted by one with `0` filled in front, and a trade
is counted on every date where the previous position is flat and the current
one is not. -/
def countEntries (positions : List ℤ) : ℕ :=
  ((0 :: positions).zip positions).countP
    (fun p => decide (p.1 = 0) && decide (p.2 ≠ 0))

/-- Trade count reported by `run_backtest` (engine.py line 221). -/
def n_trades (recs : List DayRecord) : ℕ :=
  countEntries (recs.map DayRecord.position)

/-- A date-indexed input series: whether its index is a `DatetimeIndex`, and
an association list from date key to optional value (`none` models a missing
date after `pd.DataFrame` alignment, i.e. NaN). -/
structure SeriesInput where
  hasDatetimeIndex : Bool
  entries : List (ℕ × Option ℚ)
deriving DecidableEq, Repr

/-- The failure modes of `run_backtest` (engine.py lines 109-123): a
`ValueError` naming the argument whose index is not a `DatetimeIndex`, or the
`ValueError("No valid data after alignment")`. -/
inductive BacktestError
  | invalidInput (arg : String)
  | emptyData
deriving DecidableEq, Repr

/-- Embedding of `BacktestResult` (engine.py lines 21-51): the per-date
records (positions and P&L merged, aligned 1:1), the precomputed cumulative
P&L column, and the trade count from the summary metadata. -/
structure BacktestResult where
  records : List DayRecord
  cumulative : List ℚ
  nTrades : ℕ
deriving DecidableEq, Repr

/-- Value of a series at a date key: `none` when the key is absent or the
stored value is missing. -/
def seriesValue (entries : List (ℕ × Option ℚ)) (d : ℕ) : Option ℚ :=
  match entries.find? (fun p => p.1 == d) with
  | some p => p.2
  | none => none

/-- The sorted union of the date keys of two series, as produced by
`pd.DataFrame` index alignment. -/
def unionDates (a b : List (ℕ × Option ℚ)) : List ℕ :=
  ((a.map Prod.fst ++ b.map Prod.fst).dedup).insertionSort (· ≤ ·)

/-- Embedding of the alignment step (engine.py lines 115-120):
`pd.DataFrame({"signal": ..., "spread": ...}).dropna()` keeps, in date order,
exactly the dates where both series have a present value. -/
def alignRows (sig spr : List (ℕ × Option ℚ)) : List (ℚ × ℚ) :=
  (unionDates sig spr).filterMap fun d =>
    match seriesValue sig d, seriesValue spr d with
    | some s, some p => some (s, p)
    | _, _ => none

/-- Assembly of a `BacktestResult` from the aligned rows (engine.py lines
213-256): per-date records, the cumulative-P&L column, and the summary trade
count. -/
def mkResult (cfg : BacktestConfig) (rows : List (ℚ × ℚ)) : BacktestResult :=
  { records := runRecords cfg rows
    cumulative := cumsum 0 ((runRecords cfg rows).map DayRecord.net_pnl)
    nTrades := n_trades (runRecords cfg rows) }

/-- Embedding of `run_backtest` (engine.py lines 54-256): resolve the default
config, validate the index types, align the two series, walk the dates, and
assemble the result. -/
def run_backtest (composite_signal spread : SeriesInput)
    (config : Option BacktestConfig) : Except BacktestError BacktestResult :=
  if ¬ composite_signal.hasDatetimeIndex then
    Except.error (BacktestError.invalidInput "composite_signal")
  else if ¬ spread.hasDatetimeIndex then
    Except.error (BacktestError.invalidInput "spread")
  else if (alignRows composite_signal.entries spread.entries).length = 0 then
    Except.error BacktestError.emptyData
  else
    Except.ok
      (mkResult (config.getD {})
        (alignRows composite_signal.entries spread.entries))

/-- The loop state entering the i-th date when the walk starts from `st`,
defined by index recursion; out-of-range rows are read as `(0, 0)` and never
used under the range hypotheses of the lemmas below. -/
def statePath (config : BacktestConfig) (st : EngineState)
    (rows : List (ℚ × ℚ)) : ℕ → EngineState
  | 0 => st
  | i + 1 =>
    (step config (statePath config st rows i)
      (rows.getD i (0, 0)).1 (rows.getD i (0, 0)).2).1

/-- The loop state entering the i-th date of a backtest run. -/
def stateAt (config : BacktestConfig) (rows : List (ℚ × ℚ)) (i : ℕ) :
    EngineState :=
  statePath config initState rows i

/-- The record emitted for the i-th date of a backtest run. -/
def recAt (config : BacktestConfig) (rows : List (ℚ × ℚ)) (i : ℕ) :
    DayRecord :=
  (step config (stateAt config rows i)
    (rows.getD i (0, 0)).1 (rows.getD i (0, 0)).2).2

/-- Position on the date before index `i` of a position path, reading the
date before the series start as flat; this is the "position held entering
date i" visible in the output records (`shift(1).fillna(0)`). -/
def prevPosition (positions : List ℤ) (i : ℕ) : ℤ :=
  if i = 0 then 0 else positions.getD (i - 1) 0

/-- The date on which the position held entering date `i` was opened: the
largest `j ≤ i` whose entering position is flat.  On a date entered in a
position this is the date the current trade was entered. -/
def entryIdx (positions : List ℤ) : ℕ → ℕ
  | 0 => 0
  | i + 1 => if prevPosition positions (i + 1) = 0 then i + 1
             else entryIdx positions i

/-- One aligned row of the two metric inputs (`pnl_df` and `positions_df`
share their date index): the columns `compute_performance_metrics` reads. -/
structure MetricRow where
  position : ℤ
  days_held : ℕ
  net_pnl : ℚ
  cumulative_pnl : ℚ
deriving DecidableEq, Repr, Inhabited

/-- The metric input rows of a backtest result: its records paired with the
precomputed cumulative P&L column. -/
def metricRows (res : BacktestResult) : List MetricRow :=
  (res.records.zip res.cumulative).map fun rc =>
    { position := rc.1.position
      days_held := rc.1.days_held
      net_pnl := rc.1.net_pnl
      cumulative_pnl := rc.2 }

/-- Arithmetic mean of a list, with the pandas empty-mean NaN modelled as 0
(division by zero in `ℚ`). -/
def listMean (l : List ℚ) : ℚ := l.sum / l.length

/-- Sample variance with one delta degree of freedom, as computed by the
pandas `.std()` squared; a sample of size at most one (pandas NaN) is
modelled as 0. -/
def sampleVar (l : List ℚ) : ℚ :=
  if l.length ≤ 1 then 0
  else (l.map (fun x => (x - listMean l) ^ 2)).sum / (l.length - 1)

/-- The trade-P&L accumulation loop of `compute_performance_metrics`
(metrics.py lines 161-179): walking the dates with the previous position and
the running per-trade total, flushing the total at every position-change date
on which it is nonzero, accumulating `net_pnl` on every in-position date, and
flushing a nonzero total left at the end. -/
def tradePnlsGo (prev : ℤ) (current : ℚ) : List (ℤ × ℚ) → List ℚ
  | [] => if current ≠ 0 then [current] else []
  | (pos, pnl) :: rest =>
    let flushed := if pos ≠ prev ∧ current ≠ 0 then [current] else []
    let current1 := if pos ≠ prev ∧ current ≠ 0 then 0 else current
    let current2 := if pos ≠ 0 then current1 + pnl else current1
    flushed ++ tradePnlsGo pos current2 rest

/-- Per-trade P&L values as `compute_performance_metrics` collects them, from
the per-date (position, net_pnl) pairs. -/
def tradePnls (rows : List (ℤ × ℚ)) : List ℚ := tradePnlsGo 0 0 rows

/-- Expanding maximum continued from a running maximum `m`. -/
def expandingMaxGo (m : ℚ) : List ℚ → List ℚ
  | [] => []
  | x :: xs => max m x :: expandingMaxGo (max m x) xs

/-- Embedding of `cum_pnl.expanding().max()` (metrics.py line 141). -/
def expandingMax : List ℚ → List ℚ
  | [] => []
  | x :: xs => x :: expandingMaxGo x xs

/-- Embedding of `PerformanceMetrics` (metrics.py lines 18-70), restricted to
the fields with claim-relevant or rational content; the Sharpe and Sortino
ratios are real-valued because the source divides by a sample standard
deviation and multiplies by `np.sqrt(252)`. -/
structure PerformanceMetrics where
  sharpe_ratio : ℝ
  sortino_ratio : ℝ
  max_drawdown : ℚ
  total_return : ℚ
  hit_rate : ℚ
  avg_win : ℚ
  avg_loss : ℚ
  win_loss_ratio : ℚ
  n_trades : ℕ
  avg_holding_days : ℚ

open Classical in
/-- Embedding of `compute_performance_metrics` (metrics.py lines 73-226).
The input is the per-date rows of the two aligned dataframes.  A pandas NaN
standard deviation (sample of size one) is modelled as `0`, which selects the
same `else` branch as NaN does under the `> 0` guards of the source. -/
noncomputable def compute_performance_metrics (rows : List MetricRow) :
    PerformanceMetrics :=
  let daily_pnl := rows.map MetricRow.net_pnl
  let cum_pnl := rows.map MetricRow.cumulative_pnl
  let total_return := (cum_pnl.getLast?).getD 0
  let daily_std : ℝ := Real.sqrt ((sampleVar daily_pnl : ℚ) : ℝ)
  let sharpe_ratio : ℝ :=
    if daily_std > 0 then ((listMean daily_pnl : ℚ) / daily_std) * Real.sqrt 252
    else 0
  let downside_returns := daily_pnl.filter (fun x => x < 0)
  let downside_std : ℝ := Real.sqrt ((sampleVar downside_returns : ℚ) : ℝ)
  let sortino_ratio : ℝ :=
    if downside_returns.length > 0 then
      if downside_std > 0 then
        ((listMean daily_pnl : ℚ) / downside_std) * Real.sqrt 252
      else 0
    else sharpe_ratio
  let drawdown := (cum_pnl.zip (expandingMax cum_pnl)).map fun p => p.1 - p.2
  let max_drawdown := (drawdown.min?).getD 0
  let trade_pnls := tradePnls (rows.map fun r => (r.position, r.net_pnl))
  let winning := trade_pnls.filter (fun x => 0 < x)
  let losing := trade_pnls.filter (fun x => x < 0)
  let hit_rate : ℚ :=
    if trade_pnls.length > 0 then (winning.length : ℚ) / trade_pnls.length
    else 0
  let avg_win := if winning.length > 0 then listMean winning else 0
  let avg_loss := if losing.length > 0 then listMean losing else 0
  let win_loss_ratio := if avg_loss < 0 then |avg_win / avg_loss| else 0
  let holding := (rows.filter (fun r => r.position ≠ 0)).map
    (fun r => (r.days_held : ℚ))
  let avg_holding_days := if holding.length > 0 then listMean holding else 0
  { sharpe_ratio := sharpe_ratio
    sortino_ratio := sortino_ratio
    max_drawdown := max_drawdown
    total_return := total_return
    hit_rate := hit_rate
    avg_win := avg_win
    avg_loss := avg_loss
    win_loss_ratio := win_loss_ratio
    n_trades := countEntries (rows.map MetricRow.position)
    avg_holding_days := avg_holding_days }

/-- Maximal runs of consecutive non-flat dates, continued from an open run
whose P&L so far is `acc`; each closed run contributes the sum of its
`net_pnl` values. -/
def segSumsGo (acc : Option ℚ) : List (ℤ × ℚ) → List ℚ
  | [] => acc.elim [] (fun s => [s])
  | (pos, pnl) :: rest =>
    match acc with
    | none => if pos ≠ 0 then segSumsGo (some pnl) rest else segSumsGo none rest
    | some s =>
      if pos ≠ 0 then segSumsGo (some (s + pnl)) rest
      else s :: segSumsGo none rest

/-- Per-trade P&L in the words of the specification: sum `net_pnl` over each
maximal run of consecutive non-flat-position dates. -/
def segmentSums (rows : List (ℤ × ℚ)) : List ℚ := segSumsGo none rows

/-- No-reversal relation on consecutive positions: two adjacent non-flat
positions always agree (the state machine never flips LONG to SHORT without
an intervening flat date). -/
def noRevRel (x y : ℤ) : Prop := x ≠ 0 → y ≠ 0 → x = y

/-- Hit rate in the words of claim C3: trades with strictly positive summed
P&L over total trades, `0` when there are no trades.  Stated from the claim,
to be compared against the hit rate the code computes. -/
def specHitRate (rows : List (ℤ × ℚ)) : ℚ :=
  let segs := segmentSums rows
  if segs.length = 0 then 0
  else ((segs.filter (fun s => 0 < s)).length : ℚ) / segs.length

/-! ### Concrete inputs used to instantiate the claims -/

/-- One-date series with signal one half (stays flat). -/
def flatSignalSeries : SeriesInput := ⟨true, [(1, some (1/2))]⟩

/-- One-date spread series at level 100. -/
def flatSpreadSeries : SeriesInput := ⟨true, [(1, some 100)]⟩

/-- Two-date series with signal 2 on both dates (enters and stays long). -/
def twoDaySignal : SeriesInput := ⟨true, [(1, some 2), (2, some 2)]⟩

/-- Two-date spread series moving from 100 to 105. -/
def twoDaySpread : SeriesInput := ⟨true, [(1, some 100), (2, some 105)]⟩

/-- Configuration with a five-day holding limit and default thresholds. -/
def holdFiveConfig : BacktestConfig := { max_holding_days := some 5 }

/-- Thirty consecutive dates with signal constant at 2. -/
def c2Signal : SeriesInput :=
  ⟨true, (List.range 30).map (fun i => (i + 1, some 2))⟩

/-- Thirty consecutive dates with spread constant at `s`. -/
def c2SpreadConst (s : ℚ) : SeriesInput :=
  ⟨true, (List.range 30).map (fun i => (i + 1, some s))⟩

/-- One holding cycle under `max_holding_days = 5`: the entry date plus five
held days, the last of which is the forced-exit date. -/
def c2Cycle : List (ℤ × ℕ) := [(1, 0), (1, 1), (1, 2), (1, 3), (1, 4), (0, 0)]

/-- The (position, days_held) pattern of thirty days of constant signal 2
under a five-day holding limit: five full six-day cycles. -/
def c2Expected : List (ℤ × ℕ) :=
  c2Cycle ++ c2Cycle ++ c2Cycle ++ c2Cycle ++ c2Cycle

/-- Zero-cost configuration with unit DV01, used to build a run containing a
trade whose summed P&L is exactly zero. -/
def c3Config : BacktestConfig :=
  { transaction_cost_bps := 0, dv01_per_million := 1 }

/-- Signal producing two trades: a long on dates 1-2 and a short on
dates 3-5. -/
def c3Signal : SeriesInput :=
  ⟨true, [(1, some 2), (2, some 0), (3, some (-2)), (4, some (-2)),
    (5, some 0)]⟩

/-- Spread flat during the first trade (zero P&L) and widening during the
short trade (positive P&L). -/
def c3Spread : SeriesInput :=
  ⟨true, [(1, some 100), (2, some 100), (3, some 100), (4, some 110),
    (5, some 110)]⟩

/-- The result of the two-date default-config run. -/
def twoDayRes : BacktestResult :=
  mkResult {} (alignRows twoDaySignal.entries twoDaySpread.entries)

/-- The result of the two-date run under the five-day holding limit. -/
def twoDayHoldRes : BacktestResult :=
  mkResult holdFiveConfig (alignRows twoDaySignal.entries twoDaySpread.entries)

/-- The result of the one-date flat run. -/
def flatRes : BacktestResult :=
  mkResult {} (alignRows flatSignalSeries.entries flatSpreadSeries.entries)

/-- A single metric row with one losing day, whose downside deviation is a
pandas NaN (modelled as zero). -/
def oneLossRows : List MetricRow :=
  [{ position := 0, days_held := 0, net_pnl := -1, cumulative_pnl := -1 }]

/-! ### Basic lemmas about the engine trace -/

theorem runFrom_length (config : BacktestConfig) (rows : List (ℚ × ℚ)) :
    ∀ st : EngineState, (runFrom config st rows).length = rows.length := by
  induction rows with
  | nil => intro st; rfl
  | cons r rest ih =>
    intro st
    cases r with
    | mk a b => simp [runFrom, ih]

theorem runRecords_length (config : BacktestConfig) (rows : List (ℚ × ℚ)) :
    (runRecords config rows).length = rows.length := by
  simp [runRecords, runFrom_length]

theorem statePath_cons (config : BacktestConfig) (st : EngineState) (a b : ℚ)
    (rest : List (ℚ × ℚ)) (i : ℕ) :
    statePath config st ((a, b) :: rest) (i + 1) =
      statePath config (step config st a b).1 rest i := by
  induction i with
  | zero => rfl
  | succ i ih =>
    have hstep : statePath config st ((a, b) :: rest) (i + 1 + 1) =
        (step config (statePath config st ((a, b) :: rest) (i + 1))
          (((a, b) :: rest).getD (i + 1) (0, 0)).1
          (((a, b) :: rest).getD (i + 1) (0, 0)).2).1 := rfl
    rw [hstep, ih]
    rfl

theorem runFrom_getD (config : BacktestConfig) :
    ∀ (rows : List (ℚ × ℚ)) (st : EngineState) (i : ℕ), i < rows.length →
      (runFrom config st rows).getD i (initState, default) =
        (statePath config st rows i,
          (step config (statePath config st rows i)
            (rows.getD i (0, 0)).1 (rows.getD i (0, 0)).2).2)
  | [], _, i, h => absurd h (by simp)
  | (_, _) :: _, _, 0, _ => rfl
  | (a, b) :: rest, st, i + 1, h => by
    have ih := runFrom_getD config rest (step config st a b).1 i
      (by simpa using h)
    simp only [runFrom, List.getD_cons_succ, statePath_cons]
    exact ih

theorem runRecords_getD (config : BacktestConfig) (rows : List (ℚ × ℚ))
    (i : ℕ) (h : i < rows.length) :
    (runRecords config rows).getD i default = recAt config rows i := by
  have hlen : i < (runFrom config initState rows).length := by
    rwa [runFrom_length]
  have hlen2 : i < (runRecords config rows).length := by
    rwa [runRecords_length]
  have hr := runFrom_getD config rows initState i h
  rw [List.getD_eq_getElem _ _ hlen] at hr
  rw [List.getD_eq_getElem _ _ hlen2]
  simp only [runRecords, List.getElem_map, hr, recAt, stateAt]

/-! ### Record-level views of one step -/

theorem step_position (config : BacktestConfig) (st : EngineState)
    (a b : ℚ) :
    (step config st a b).2.position = (step config st a b).1.current_position :=
  rfl

theorem step_days_held (config : BacktestConfig) (st : EngineState)
    (a b : ℚ) :
    (step config st a b).2.days_held = (step config st a b).1.days_held :=
  rfl

theorem step_spread (config : BacktestConfig) (st : EngineState) (a b : ℚ) :
    (step config st a b).2.spread = b :=
  rfl

theorem step_signal (config : BacktestConfig) (st : EngineState) (a b : ℚ) :
    (step config st a b).2.signal = a :=
  rfl

theorem step_cost_split (config : BacktestConfig) (st : EngineState)
    (a b : ℚ) :
    (step config st a b).2.cost =
      (step config st a b).2.entry_cost + (step config st a b).2.exit_cost :=
  rfl

theorem step_net_pnl (config : BacktestConfig) (st : EngineState) (a b : ℚ) :
    (step config st a b).2.net_pnl =
      (step config st a b).2.spread_pnl - (step config st a b).2.cost :=
  rfl

theorem step_entry_cost (config : BacktestConfig) (st : EngineState)
    (a b : ℚ) :
    (step config st a b).2.entry_cost = (transition config st a b).2.1 :=
  rfl

theorem step_exit_cost (config : BacktestConfig) (st : EngineState)
    (a b : ℚ) :
    (step config st a b).2.exit_cost = (transition config st a b).2.2 :=
  rfl

theorem step_spread_pnl (config : BacktestConfig) (st : EngineState)
    (a b : ℚ) :
    (step config st a b).2.spread_pnl =
      if st.current_position = 0 then 0
      else -(st.current_position : ℚ) * (b - st.entry_spread)
        * config.dv01_per_million * config.position_size := by
  by_cases h : st.current_position = 0 <;> simp [step, h]

/-! ### Case analysis of the transition block -/

theorem transition_flat (config : BacktestConfig) (st : EngineState)
    (a b : ℚ) (h : st.current_position = 0) :
    (a > config.entry_threshold ∧
      transition config st a b = (⟨1, 0, b⟩, entryExitCost config, 0)) ∨
    (¬ a > config.entry_threshold ∧ a < -config.entry_threshold ∧
      transition config st a b = (⟨-1, 0, b⟩, entryExitCost config, 0)) ∨
    (¬ a > config.entry_threshold ∧ ¬ a < -config.entry_threshold ∧
      transition config st a b = (st, 0, 0)) := by
  by_cases h1 : a > config.entry_threshold
  · exact Or.inl ⟨h1, by simp [transition, h, h1]⟩
  by_cases h2 : a < -config.entry_threshold
  · exact Or.inr (Or.inl ⟨h1, h2, by simp [transition, h, h1, h2]⟩)
  · exact Or.inr (Or.inr ⟨h1, h2, by simp [transition, h, h1, h2]⟩)

theorem transition_in_position (config : BacktestConfig) (st : EngineState)
    (a b : ℚ) (h : st.current_position ≠ 0) :
    ((|a| < config.exit_threshold ∨
        exitTimeCond config.max_holding_days (st.days_held + 1)) ∧
      transition config st a b =
        (⟨0, 0, st.entry_spread⟩, 0, entryExitCost config)) ∨
    (¬ (|a| < config.exit_threshold ∨
        exitTimeCond config.max_holding_days (st.days_held + 1)) ∧
      transition config st a b =
        (⟨st.current_position, st.days_held + 1, st.entry_spread⟩, 0, 0)) := by
  by_cases hc : |a| < config.exit_threshold ∨
      exitTimeCond config.max_holding_days (st.days_held + 1)
  · exact Or.inl ⟨hc, by simp [transition, h, hc]⟩
  · exact Or.inr ⟨hc, by simp [transition, h, hc]⟩

/-! ### Glue between the state trace and the output records -/

theorem stateAt_zero (config : BacktestConfig) (rows : List (ℚ × ℚ)) :
    stateAt config rows 0 = initState :=
  rfl

theorem stateAt_succ (config : BacktestConfig) (rows : List (ℚ × ℚ))
    (i : ℕ) :
    stateAt config rows (i + 1) =
      (step config (stateAt config rows i)
        (rows.getD i (0, 0)).1 (rows.getD i (0, 0)).2).1 :=
  rfl

theorem recAt_position (config : BacktestConfig) (rows : List (ℚ × ℚ))
    (i : ℕ) :
    (recAt config rows i).position =
      (stateAt config rows (i + 1)).current_position :=
  rfl

theorem recAt_days_held (config : BacktestConfig) (rows : List (ℚ × ℚ))
    (i : ℕ) :
    (recAt config rows i).days_held = (stateAt config rows (i + 1)).days_held :=
  rfl

theorem recAt_spread (config : BacktestConfig) (rows : List (ℚ × ℚ))
    (i : ℕ) :
    (recAt config rows i).spread = (rows.getD i (0, 0)).2 :=
  rfl

theorem prevPosition_succ (ps : List ℤ) (n : ℕ) :
    prevPosition ps (n + 1) = ps.getD n 0 := by
  simp [prevPosition]

theorem prevPosition_eq_stateAt (config : BacktestConfig)
    (rows : List (ℚ × ℚ)) (i : ℕ) (h : i ≤ rows.length) :
    prevPosition ((runRecords config rows).map DayRecord.position) i =
      (stateAt config rows i).current_position := by
  cases i with
  | zero => rfl
  | succ n =>
    have hn : n < rows.length := Nat.lt_of_succ_le h
    have hn2 : n < (runRecords config rows).length := by
      rwa [runRecords_length]
    have hn3 : n < ((runRecords config rows).map DayRecord.position).length := by
      simpa using hn2
    rw [prevPosition_succ, List.getD_eq_getElem _ _ hn3, List.getElem_map]
    have := runRecords_getD config rows n hn
    rw [List.getD_eq_getElem _ _ hn2] at this
    rw [this, recAt_position]

theorem entryIdx_of_prev_zero (ps : List ℤ) (i : ℕ)
    (h : prevPosition ps i = 0) : entryIdx ps i = i := by
  cases i with
  | zero => rfl
  | succ n => simp [entryIdx, h]

theorem entryIdx_of_prev_ne (ps : List ℤ) (n : ℕ)
    (h : prevPosition ps (n + 1) ≠ 0) :
    entryIdx ps (n + 1) = entryIdx ps n := by
  simp [entryIdx, h]

theorem entry_spread_inv (config : BacktestConfig) (rows : List (ℚ × ℚ)) :
    ∀ i, i ≤ rows.length → (stateAt config rows i).current_position ≠ 0 →
      (stateAt config rows i).entry_spread =
        ((runRecords config rows).getD
          (entryIdx ((runRecords config rows).map DayRecord.position) i)
          default).spread := by
  intro i
  induction i with
  | zero => intro _ h0; exact absurd rfl h0
  | succ n ih =>
    intro hle hpos
    have hn : n < rows.length := Nat.lt_of_succ_le hle
    have hnle : n ≤ rows.length := Nat.le_of_lt hn
    have hprev : prevPosition ((runRecords config rows).map DayRecord.position)
        (n + 1) = (stateAt config rows (n + 1)).current_position :=
      prevPosition_eq_stateAt config rows (n + 1) hle
    have hpne : prevPosition ((runRecords config rows).map DayRecord.position)
        (n + 1) ≠ 0 := by rw [hprev]; exact hpos
    rw [entryIdx_of_prev_ne _ _ hpne]
    have hstep : stateAt config rows (n + 1) =
        (transition config (stateAt config rows n)
          (rows.getD n (0, 0)).1 (rows.getD n (0, 0)).2).1 := rfl
    by_cases h0 : (stateAt config rows n).current_position = 0
    · have hidx : entryIdx ((runRecords config rows).map DayRecord.position) n
          = n := by
        apply entryIdx_of_prev_zero
        rw [prevPosition_eq_stateAt config rows n hnle]
        exact h0
      have hrec : (runRecords config rows).getD n default =
          recAt config rows n := runRecords_getD config rows n hn
      rcases transition_flat config (stateAt config rows n)
          (rows.getD n (0, 0)).1 (rows.getD n (0, 0)).2 h0 with
        ⟨_, ht⟩ | ⟨_, _, ht⟩ | ⟨_, _, ht⟩
      · rw [hidx, hrec, recAt_spread, hstep, ht]
      · rw [hidx, hrec, recAt_spread, hstep, ht]
      · exfalso
        apply hpos
        rw [hstep, ht]
        exact h0
    · rcases transition_in_position config (stateAt config rows n)
          (rows.getD n (0, 0)).1 (rows.getD n (0, 0)).2 h0 with
        ⟨_, ht⟩ | ⟨_, ht⟩
      · exfalso
        apply hpos
        rw [hstep, ht]
      · rw [hstep, ht]
        exact ih hnle h0

/-! ### No-reversal chain of the position path -/

theorem step_pos_cases (config : BacktestConfig) (st : EngineState)
    (a b : ℚ) (h : st.current_position ≠ 0) :
    (step config st a b).1.current_position = 0 ∨
      (step config st a b).1.current_position = st.current_position := by
  have hs : (step config st a b).1 = (transition config st a b).1 := rfl
  rcases transition_in_position config st a b h with ⟨_, ht⟩ | ⟨_, ht⟩
  · left; rw [hs, ht]
  · right; rw [hs, ht]

theorem runFrom_pos_chain (config : BacktestConfig) :
    ∀ (rows : List (ℚ × ℚ)) (st : EngineState),
      List.Chain' noRevRel
        (st.current_position ::
          (runFrom config st rows).map (fun pr => pr.2.position))
  | [], _ => List.chain'_singleton _
  | (a, b) :: rest, st => by
    have tail := runFrom_pos_chain config rest (step config st a b).1
    have hmap : (runFrom config st ((a, b) :: rest)).map
        (fun pr => pr.2.position) =
        (step config st a b).1.current_position ::
          (runFrom config (step config st a b).1 rest).map
            (fun pr => pr.2.position) := by
      simp [runFrom, step_position]
    rw [hmap]
    refine List.chain'_cons.mpr ⟨?_, tail⟩
    intro h1 h2
    rcases step_pos_cases config st a b h1 with hc | hc
    · exact absurd hc h2
    · exact hc.symm

theorem runRecords_pos_chain (config : BacktestConfig)
    (rows : List (ℚ × ℚ)) :
    List.Chain' noRevRel ((runRecords config rows).map DayRecord.position) := by
  have h := (runFrom_pos_chain config rows initState).tail
  simpa [runRecords, List.map_map, Function.comp] using h

/-! ### Running total -/

theorem cumsum_getD (l : List ℚ) :
    ∀ (acc : ℚ) (i : ℕ), i < l.length →
      (cumsum acc l).getD i 0 = acc + (l.take (i + 1)).sum := by
  induction l with
  | nil => intro acc i h; simp at h
  | cons x xs ih =>
    intro acc i h
    cases i with
    | zero => simp [cumsum]
    | succ n =>
      have hh : n < xs.length := by simpa using h
      simp only [cumsum, List.getD_cons_succ, ih (acc + x) n hh,
        List.take_succ_cons, List.sum_cons]
      ring

/-! ### Inversion of a successful run -/

theorem run_backtest_ok (sig spr : SeriesInput)
    (config : Option BacktestConfig) (res : BacktestResult)
    (h : run_backtest sig spr config = Except.ok res) :
    res = mkResult (config.getD {}) (alignRows sig.entries spr.entries) := by
  unfold run_backtest at h
  split_ifs at h
  all_goals first
    | exact Except.noConfusion h
    | exact (Except.ok.inj h).symm

theorem mkResult_records (cfg : BacktestConfig) (rows : List (ℚ × ℚ)) :
    (mkResult cfg rows).records = runRecords cfg rows :=
  rfl

/-! ### Claim C4: configuration validation -/

/-- C4: constructing a `BacktestConfig` raises a configuration error if and
only if `entry_threshold <= exit_threshold`, or `position_size <= 0`, or
`transaction_cost_bps < 0`; for all parameter values with
`entry_threshold > exit_threshold`, `position_size > 0` and
`transaction_cost_bps >= 0`, construction succeeds. -/
theorem backtest_config_validation (c : BacktestConfig) :
    ((∃ e, mkBacktestConfig c = Except.error e) ↔
      (c.entry_threshold ≤ c.exit_threshold ∨ c.position_size ≤ 0 ∨
        c.transaction_cost_bps < 0)) ∧
    (mkBacktestConfig c = Except.ok c ↔
      (c.exit_threshold < c.entry_threshold ∧ 0 < c.position_size ∧
        0 ≤ c.transaction_cost_bps)) := by
  unfold mkBacktestConfig
  split_ifs with h1 h2 h3
  · simp [h1, h1.not_lt]
  · simp [h1, h2, h2.not_lt]
  · simp [h1, h2, h3, h3.not_le]
  · simp [h1, h2, h3, not_le.mp h1, not_le.mp h2, not_lt.mp h3]

/-! ### Claim C5: input validation and failure modes -/

/-- C5: `run_backtest` fails with an invalid-input error naming the offending
argument whenever either input series lacks a date-typed index; after
aligning the two series on common dates and dropping rows where either value
is missing, it fails with an empty-data error whenever zero rows remain;
otherwise it returns a result without raising. -/
theorem run_backtest_failure_modes (sig spr : SeriesInput)
    (config : Option BacktestConfig) :
    (run_backtest sig spr config =
        Except.error (BacktestError.invalidInput "composite_signal") ↔
      ¬ sig.hasDatetimeIndex) ∧
    (run_backtest sig spr config =
        Except.error (BacktestError.invalidInput "spread") ↔
      (sig.hasDatetimeIndex ∧ ¬ spr.hasDatetimeIndex)) ∧
    (run_backtest sig spr config = Except.error BacktestError.emptyData ↔
      (sig.hasDatetimeIndex ∧ spr.hasDatetimeIndex ∧
        (alignRows sig.entries spr.entries).length = 0)) ∧
    ((∃ res, run_backtest sig spr config = Except.ok res) ↔
      (sig.hasDatetimeIndex ∧ spr.hasDatetimeIndex ∧
        (alignRows sig.entries spr.entries).length ≠ 0)) := by
  unfold run_backtest
  split_ifs with h1 h2 h3 <;> simp_all

/-! ### Claim C10: default configuration -/

/-- C10: calling `run_backtest` with no config behaves identically to calling
it with the default configuration `entry_threshold = 3/2`,
`exit_threshold = 3/4`, `position_size = 10`, `transaction_cost_bps = 1`,
`max_holding_days = none`, `dv01_per_million = 4750` (the literals `1.5`,
`0.75`, `10.0`, `1.0`, `None`, `4750.0` of the source), and these defaults
satisfy the construction-time invariants. -/
theorem run_backtest_default_config (sig spr : SeriesInput) :
    run_backtest sig spr none =
      run_backtest sig spr
        (some { entry_threshold := 3/2, exit_threshold := 3/4,
                position_size := 10, transaction_cost_bps := 1,
                max_holding_days := none, dv01_per_million := 4750 }) ∧
    mkBacktestConfig
        { entry_threshold := 3/2, exit_threshold := 3/4,
          position_size := 10, transaction_cost_bps := 1,
          max_holding_days := none, dv01_per_million := 4750 } =
      Except.ok
        { entry_threshold := 3/2, exit_threshold := 3/4,
          position_size := 10, transaction_cost_bps := 1,
          max_holding_days := none, dv01_per_million := 4750 } := by
  refine ⟨rfl, ?_⟩
  simp only [mkBacktestConfig]
  norm_num

/-! ### Claim C6: entry/exit costs are mutually exclusive per date -/

theorem step_entry_cost_zero (config : BacktestConfig) (st : EngineState)
    (a b : ℚ) (h : st.current_position ≠ 0) :
    (step config st a b).2.entry_cost = 0 := by
  rw [step_entry_cost]
  rcases transition_in_position config st a b h with ⟨_, ht⟩ | ⟨_, ht⟩ <;>
    rw [ht]

theorem step_exit_cost_zero (config : BacktestConfig) (st : EngineState)
    (a b : ℚ) (h : st.current_position = 0) :
    (step config st a b).2.exit_cost = 0 := by
  rw [step_exit_cost]
  rcases transition_flat config st a b h with ⟨_, ht⟩ | ⟨_, _, ht⟩ | ⟨_, _, ht⟩ <;>
    rw [ht]

/-- C6: on every date of a backtest run, an entry cost is charged only when
the state entering the date is flat, an exit cost only when it is non-flat;
in particular at most one of the two costs is nonzero on any date. -/
theorem cost_mutual_exclusivity (sig spr : SeriesInput)
    (config : Option BacktestConfig) (res : BacktestResult)
    (h : run_backtest sig spr config = Except.ok res)
    (i : ℕ) (hi : i < res.records.length) :
    ((res.records.getD i default).entry_cost ≠ 0 →
      prevPosition (res.records.map DayRecord.position) i = 0) ∧
    ((res.records.getD i default).exit_cost ≠ 0 →
      prevPosition (res.records.map DayRecord.position) i ≠ 0) ∧
    ((res.records.getD i default).entry_cost = 0 ∨
      (res.records.getD i default).exit_cost = 0) := by
  obtain rfl := run_backtest_ok sig spr config res h
  set cfg := config.getD {} with hcfg
  set rows := alignRows sig.entries spr.entries with hrows
  rw [mkResult_records] at hi ⊢
  have hilen : i < rows.length := by rwa [runRecords_length] at hi
  have hile : i ≤ rows.length := Nat.le_of_lt hilen
  rw [runRecords_getD cfg rows i hilen,
    prevPosition_eq_stateAt cfg rows i hile]
  by_cases h0 : (stateAt cfg rows i).current_position = 0
  · refine ⟨fun _ => h0, ?_, Or.inr ?_⟩
    · intro hx
      exact absurd (step_exit_cost_zero cfg (stateAt cfg rows i) _ _ h0) hx
    · exact step_exit_cost_zero cfg (stateAt cfg rows i) _ _ h0
  · refine ⟨?_, fun _ => h0, Or.inl ?_⟩
    · intro hx
      exact absurd (step_entry_cost_zero cfg (stateAt cfg rows i) _ _ h0) hx
    · exact step_entry_cost_zero cfg (stateAt cfg rows i) _ _ h0

/-! ### Claim C7: P&L decomposition and cumulative P&L -/

theorem cumsum_length (acc : ℚ) (l : List ℚ) :
    (cumsum acc l).length = l.length := by
  induction l generalizing acc with
  | nil => rfl
  | cons x xs ih => simp [cumsum, ih]

/-- C7: on every date of a backtest run, `net_pnl` equals
`spread_pnl - cost` exactly, and `cumulative_pnl` equals the sum of
`net_pnl` over all dates from the first date through this one. -/
theorem pnl_decomposition (sig spr : SeriesInput)
    (config : Option BacktestConfig) (res : BacktestResult)
    (h : run_backtest sig spr config = Except.ok res)
    (i : ℕ) (hi : i < res.records.length) :
    (res.records.getD i default).net_pnl =
      (res.records.getD i default).spread_pnl -
        (res.records.getD i default).cost ∧
    res.cumulative.getD i 0 =
      ((res.records.map DayRecord.net_pnl).take (i + 1)).sum := by
  obtain rfl := run_backtest_ok sig spr config res h
  set cfg := config.getD {} with hcfg
  set rows := alignRows sig.entries spr.entries with hrows
  rw [mkResult_records] at hi ⊢
  have hilen : i < rows.length := by rwa [runRecords_length] at hi
  constructor
  · rw [runRecords_getD cfg rows i hilen]
    exact step_net_pnl cfg (stateAt cfg rows i) _ _
  · have hmaplen : i < ((runRecords cfg rows).map DayRecord.net_pnl).length := by
      simpa [runRecords_length] using hilen
    have := cumsum_getD ((runRecords cfg rows).map DayRecord.net_pnl) 0 i hmaplen
    rw [zero_add] at this
    exact this

/-! ### Claim C8: max-holding-days enforcement -/

theorem exitTimeCond_some (N d : ℕ) : exitTimeCond (some N) d ↔ N ≤ d := by
  constructor
  · rintro ⟨m, hm, hle⟩
    cases Option.some.inj hm
    exact hle
  · intro hle
    exact ⟨N, rfl, hle⟩

/-- C8: with `max_holding_days = N` set, no record of a backtest run has
`days_held > N` while `position ≠ 0`; and while in a position, the exit
fires on a date exactly when `|signal| < exit_threshold` or the holding
days reach `N` after the daily increment. -/
theorem max_holding_days_enforced (sig spr : SeriesInput)
    (config : Option BacktestConfig) (res : BacktestResult) (N : ℕ)
    (h : run_backtest sig spr config = Except.ok res)
    (hN : (config.getD {}).max_holding_days = some N)
    (i : ℕ) (hi : i < res.records.length) :
    (¬ ((res.records.getD i default).position ≠ 0 ∧
        (res.records.getD i default).days_held > N)) ∧
    (prevPosition (res.records.map DayRecord.position) i ≠ 0 →
      ((res.records.getD i default).position = 0 ↔
        (|(res.records.getD i default).signal| <
            (config.getD {}).exit_threshold ∨
          (if i = 0 then 0
           else (res.records.getD (i - 1) default).days_held) + 1 ≥ N))) := by
  obtain rfl := run_backtest_ok sig spr config res h
  set cfg := config.getD {} with hcfg
  set rows := alignRows sig.entries spr.entries with hrows
  rw [mkResult_records] at hi ⊢
  have hilen : i < rows.length := by rwa [runRecords_length] at hi
  have hile : i ≤ rows.length := Nat.le_of_lt hilen
  have hdh : (if i = 0 then 0
      else ((runRecords cfg rows).getD (i - 1) default).days_held) =
      (stateAt cfg rows i).days_held := by
    cases i with
    | zero => rfl
    | succ n =>
      have hn : n < rows.length := Nat.lt_of_succ_le hile
      simp only [Nat.succ_ne_zero, if_false, Nat.succ_sub_one]
      rw [runRecords_getD cfg rows n hn, recAt_days_held]
  rw [runRecords_getD cfg rows i hilen,
    prevPosition_eq_stateAt cfg rows i hile, hdh]
  have hstep1 : (recAt cfg rows i).position =
      (transition cfg (stateAt cfg rows i)
        (rows.getD i (0, 0)).1 (rows.getD i (0, 0)).2).1.current_position := rfl
  have hstep2 : (recAt cfg rows i).days_held =
      (transition cfg (stateAt cfg rows i)
        (rows.getD i (0, 0)).1 (rows.getD i (0, 0)).2).1.days_held := rfl
  have hsig : (recAt cfg rows i).signal = (rows.getD i (0, 0)).1 := rfl
  by_cases h0 : (stateAt cfg rows i).current_position = 0
  · rcases transition_flat cfg (stateAt cfg rows i)
        (rows.getD i (0, 0)).1 (rows.getD i (0, 0)).2 h0 with
      ⟨_, ht⟩ | ⟨_, _, ht⟩ | ⟨_, _, ht⟩ <;>
      refine ⟨?_, fun hpre => absurd h0 hpre⟩ <;>
      rw [hstep1, hstep2, ht] <;> simp [h0]
  · rcases transition_in_position cfg (stateAt cfg rows i)
        (rows.getD i (0, 0)).1 (rows.getD i (0, 0)).2 h0 with
      ⟨hc, ht⟩ | ⟨hc, ht⟩
    · constructor
      · rw [hstep1, ht]
        simp
      · intro _
        rw [hstep1, hsig, ht]
        rw [hN, exitTimeCond_some] at hc
        exact iff_of_true rfl hc
    · constructor
      · rw [hstep1, hstep2, ht]
        rw [hN, exitTimeCond_some] at hc
        push_neg at hc
        intro hcon
        exact absurd (Nat.le_of_lt hcon.2) (Nat.not_le.mpr hc.2)
      · intro _
        rw [hstep1, hsig, ht]
        rw [hN, exitTimeCond_some] at hc
        exact iff_of_false h0 hc

/-! ### Claim C1: the P&L accrual rule -/

/-- C1: on every date of a backtest run, `spread_pnl` equals
`-P * (spread - E) * dv01_per_million * position_size`, where `P` is the
position held entering the date (the previous record's position, flat before
the first date) and `E` is the spread recorded on the date the position `P`
was opened (the last date entered flat); `spread_pnl` is `0` whenever
`P = 0`, so in particular on every date where a new position opens from
flat. -/
theorem spread_pnl_accrual (sig spr : SeriesInput)
    (config : Option BacktestConfig) (res : BacktestResult)
    (h : run_backtest sig spr config = Except.ok res)
    (i : ℕ) (hi : i < res.records.length) :
    ((res.records.getD i default).spread_pnl =
      if prevPosition (res.records.map DayRecord.position) i = 0 then 0
      else
        -((prevPosition (res.records.map DayRecord.position) i : ℤ) : ℚ) *
          ((res.records.getD i default).spread -
            (res.records.getD
              (entryIdx (res.records.map DayRecord.position) i)
              default).spread) *
          (config.getD {}).dv01_per_million *
          (config.getD {}).position_size) ∧
    (prevPosition (res.records.map DayRecord.position) i = 0 →
      (res.records.getD i default).spread_pnl = 0) := by
  obtain rfl := run_backtest_ok sig spr config res h
  set cfg := config.getD {} with hcfg
  set rows := alignRows sig.entries spr.entries with hrows
  rw [mkResult_records] at hi ⊢
  have hilen : i < rows.length := by rwa [runRecords_length] at hi
  have hile : i ≤ rows.length := Nat.le_of_lt hilen
  have hrec : (runRecords cfg rows).getD i default = recAt cfg rows i :=
    runRecords_getD cfg rows i hilen
  rw [hrec, prevPosition_eq_stateAt cfg rows i hile]
  have hsp : (recAt cfg rows i).spread_pnl =
      if (stateAt cfg rows i).current_position = 0 then 0
      else -((stateAt cfg rows i).current_position : ℚ) *
        ((rows.getD i (0, 0)).2 - (stateAt cfg rows i).entry_spread) *
        cfg.dv01_per_million * cfg.position_size :=
    step_spread_pnl cfg (stateAt cfg rows i) _ _
  constructor
  · rw [hsp]
    by_cases h0 : (stateAt cfg rows i).current_position = 0
    · simp [h0]
    · rw [if_neg h0, if_neg h0, recAt_spread,
        entry_spread_inv cfg rows i hile h0]
  · intro hpp
    rw [hsp, if_pos hpp]

/-! ### Claim C9: the Sortino ratio -/

theorem sampleVar_nonneg (l : List ℚ) : 0 ≤ sampleVar l := by
  unfold sampleVar
  split_ifs with h
  · exact le_refl 0
  · apply div_nonneg
    · apply List.sum_nonneg
      intro x hx
      obtain ⟨y, _, rfl⟩ := List.mem_map.mp hx
      positivity
    · push_neg at h
      have h1 : (1 : ℚ) < l.length := by exact_mod_cast h
      linarith

/-- C9: `compute_performance_metrics` returns a `sortino_ratio` equal to the
mean of `net_pnl` divided by the sample standard deviation of only the
negative `net_pnl` values, times `sqrt 252`; when there are no negative-P&L
days it returns the `sharpe_ratio`; and when the downside deviation is
exactly zero it returns `0`.  (A pandas NaN deviation, sample size one, is
modelled as deviation zero; both select the same branch.) -/
theorem sortino_ratio_cases (rows : List MetricRow) (h : rows ≠ []) :
    (compute_performance_metrics rows).sortino_ratio =
      if (rows.map MetricRow.net_pnl).filter (fun x => decide (x < 0)) = []
      then (compute_performance_metrics rows).sharpe_ratio
      else if sampleVar
          ((rows.map MetricRow.net_pnl).filter (fun x => decide (x < 0))) = 0
      then 0
      else
        (((listMean (rows.map MetricRow.net_pnl) : ℚ) : ℝ) /
            Real.sqrt
              ((sampleVar ((rows.map MetricRow.net_pnl).filter
                (fun x => decide (x < 0))) : ℚ) : ℝ)) *
          Real.sqrt 252 := by
  simp only [compute_performance_metrics]
  by_cases hd : (rows.map MetricRow.net_pnl).filter (fun x => decide (x < 0))
      = []
  · simp [hd]
  · have hlen : 0 < ((rows.map MetricRow.net_pnl).filter
        (fun x => decide (x < 0))).length := List.length_pos.mpr hd
    by_cases hv : sampleVar ((rows.map MetricRow.net_pnl).filter
        (fun x => decide (x < 0))) = 0
    · rw [if_neg hd, if_pos hv]
      simp [hv, hlen]
    · have hvpos : 0 < sampleVar ((rows.map MetricRow.net_pnl).filter
          (fun x => decide (x < 0))) :=
        lt_of_le_of_ne (sampleVar_nonneg _) (Ne.symm hv)
      have hsq : (0 : ℝ) < Real.sqrt
          ((sampleVar ((rows.map MetricRow.net_pnl).filter
            (fun x => decide (x < 0))) : ℚ) : ℝ) :=
        Real.sqrt_pos.mpr (by exact_mod_cast hvpos)
      rw [if_neg hd, if_neg hv]
      simp [hlen, hsq]

/-! ### Claim C3: hit rate versus per-trade segmentation -/

theorem tradeSeg_key : ∀ rows : List (ℤ × ℚ),
    (List.Chain' noRevRel (rows.map Prod.fst) →
      tradePnlsGo 0 0 rows =
        (segSumsGo none rows).filter (fun x => decide (x ≠ 0))) ∧
    (∀ (p : ℤ) (s : ℚ), p ≠ 0 →
      List.Chain' noRevRel (p :: rows.map Prod.fst) →
      tradePnlsGo p s rows =
        (segSumsGo (some s) rows).filter (fun x => decide (x ≠ 0)))
  | [] => by
    constructor
    · intro _
      simp [tradePnlsGo, segSumsGo]
    · intro p s _ _
      by_cases hs : s = 0 <;> simp [tradePnlsGo, segSumsGo, hs]
  | (pos, pnl) :: rest => by
    have ih := tradeSeg_key rest
    constructor
    · intro hch
      have hch2 : List.Chain' noRevRel (pos :: rest.map Prod.fst) := by
        simpa using hch
      by_cases hp : pos = 0
      · subst hp
        simp only [tradePnlsGo, segSumsGo]
        simp
        simpa using ih.1 hch2.tail
      · simp only [tradePnlsGo, segSumsGo]
        simp [hp]
        simpa using ih.2 pos pnl hp hch2
    · intro p s hp hch
      have hlink : noRevRel p pos := (List.chain'_cons.mp hch).1
      have hch2 : List.Chain' noRevRel (pos :: rest.map Prod.fst) :=
        (List.chain'_cons.mp hch).2
      by_cases hpos : pos = 0
      · subst hpos
        by_cases hs : s = 0
        · subst hs
          simp only [tradePnlsGo, segSumsGo]
          simp
          simpa using ih.1 hch2.tail
        · simp only [tradePnlsGo, segSumsGo]
          simp [hs, Ne.symm hp]
          simpa using ih.1 hch2.tail
      · have hpp : p = pos := hlink hp hpos
        subst hpp
        simp only [tradePnlsGo, segSumsGo]
        simp [hpos]
        simpa using ih.2 p (s + pnl) hp hch2

theorem tradePnls_eq_segment_filter (rows : List (ℤ × ℚ))
    (hch : List.Chain' noRevRel (rows.map Prod.fst)) :
    tradePnls rows = (segmentSums rows).filter (fun x => decide (x ≠ 0)) :=
  (tradeSeg_key rows).1 hch

theorem map_fst_zip_map {α β γ : Type} (g : α → γ) :
    ∀ (l1 : List α) (l2 : List β), l2.length = l1.length →
      (l1.zip l2).map (fun ab => g ab.1) = l1.map g
  | [], _, _ => by simp
  | a :: l1, [], h => by simp at h
  | a :: l1, b :: l2, h => by
    simp only [List.zip_cons_cons, List.map_cons]
    rw [map_fst_zip_map g l1 l2 (by simpa using h)]

theorem metricRows_pairs (res : BacktestResult)
    (hl : res.cumulative.length = res.records.length) :
    (metricRows res).map (fun r => (r.position, r.net_pnl)) =
      res.records.map (fun r => (r.position, r.net_pnl)) := by
  have := map_fst_zip_map
    (fun r : DayRecord => (r.position, r.net_pnl)) res.records res.cumulative hl
  simpa [metricRows, List.map_map, Function.comp] using this

theorem compute_hit_rate_def (rows : List MetricRow) :
    (compute_performance_metrics rows).hit_rate =
      if 0 < (tradePnls (rows.map fun r => (r.position, r.net_pnl))).length then
        (((tradePnls (rows.map fun r => (r.position, r.net_pnl))).filter
            (fun x => decide (0 < x))).length : ℚ) /
          (tradePnls (rows.map fun r => (r.position, r.net_pnl))).length
      else 0 :=
  rfl

/-- C3 amended: for backtest outputs, the hit rate is the number of trades
(maximal non-flat runs) with strictly positive summed `net_pnl` divided by
the number of trades with nonzero summed `net_pnl` (zero-P&L trades are
dropped from the denominator by the accumulation loop), and `0` when no
trade has nonzero summed P&L. -/
theorem hit_rate_characterization (sig spr : SeriesInput)
    (config : Option BacktestConfig) (res : BacktestResult)
    (h : run_backtest sig spr config = Except.ok res) :
    (compute_performance_metrics (metricRows res)).hit_rate =
      if ((segmentSums ((metricRows res).map fun r =>
            (r.position, r.net_pnl))).filter (fun x => decide (x ≠ 0))).length
          = 0 then 0
      else
        (((segmentSums ((metricRows res).map fun r =>
              (r.position, r.net_pnl))).filter
            (fun x => decide (0 < x))).length : ℚ) /
          ((segmentSums ((metricRows res).map fun r =>
              (r.position, r.net_pnl))).filter
            (fun x => decide (x ≠ 0))).length := by
  obtain rfl := run_backtest_ok sig spr config res h
  set cfg := config.getD {} with hcfg
  set rows := alignRows sig.entries spr.entries with hrows
  have hlen : (mkResult cfg rows).cumulative.length =
      (mkResult cfg rows).records.length := by
    simp [mkResult, cumsum_length]
  have hpairs := metricRows_pairs (mkResult cfg rows) hlen
  rw [compute_hit_rate_def, hpairs, mkResult_records]
  have hch : List.Chain' noRevRel
      (((runRecords cfg rows).map fun r =>
        (r.position, r.net_pnl)).map Prod.fst) := by
    have := runRecords_pos_chain cfg rows
    simpa [List.map_map, Function.comp] using this
  rw [tradePnls_eq_segment_filter _ hch]
  have hff : ((segmentSums ((runRecords cfg rows).map fun r =>
        (r.position, r.net_pnl))).filter (fun x => decide (x ≠ 0))).filter
        (fun x => decide (0 < x)) =
      (segmentSums ((runRecords cfg rows).map fun r =>
        (r.position, r.net_pnl))).filter (fun x => decide (0 < x)) := by
    rw [List.filter_filter]
    apply List.filter_congr
    intro x _
    by_cases hx : (0 : ℚ) < x
    · simp [hx, ne_of_gt hx]
    · simp [hx]
  by_cases hz : ((segmentSums ((runRecords cfg rows).map fun r =>
      (r.position, r.net_pnl))).filter (fun x => decide (x ≠ 0))).length = 0
  · rw [if_pos hz, hz]
    simp
  · rw [if_neg hz, if_pos (Nat.pos_of_ne_zero hz), hff]

/-! ### Claim C2: the forced-exit scenario -/

theorem step_pos_days_eq (config : BacktestConfig) (st1 st2 : EngineState)
    (a b1 b2 : ℚ) (hpos : st1.current_position = st2.current_position)
    (hdh : st1.days_held = st2.days_held) :
    (step config st1 a b1).1.current_position =
      (step config st2 a b2).1.current_position ∧
    (step config st1 a b1).1.days_held = (step config st2 a b2).1.days_held := by
  have hs1 : (step config st1 a b1).1 = (transition config st1 a b1).1 := rfl
  have hs2 : (step config st2 a b2).1 = (transition config st2 a b2).1 := rfl
  rw [hs1, hs2]
  by_cases h0 : st1.current_position = 0
  · have h02 : st2.current_position = 0 := by rw [← hpos]; exact h0
    by_cases hA : a > config.entry_threshold
    · simp [transition, h0, h02, hA]
    · by_cases hB : a < -config.entry_threshold
      · simp [transition, h0, h02, hA, hB]
      · simp [transition, h0, h02, hA, hB, hpos, hdh]
  · have h02 : ¬ st2.current_position = 0 := by rw [← hpos]; exact h0
    by_cases hC : |a| < config.exit_threshold ∨
        exitTimeCond config.max_holding_days (st1.days_held + 1)
    · have hC2 : |a| < config.exit_threshold ∨
          exitTimeCond config.max_holding_days (st2.days_held + 1) := by
        rw [← hdh]; exact hC
      simp [transition, h0, h02, hC, hC2]
    · have hC2 : ¬ (|a| < config.exit_threshold ∨
          exitTimeCond config.max_holding_days (st2.days_held + 1)) := by
        rw [← hdh]; exact hC
      simp [transition, h0, h02, hC, hC2, hpos, hdh]

theorem runFrom_pos_days_eq (config : BacktestConfig) :
    ∀ (rows1 rows2 : List (ℚ × ℚ)) (st1 st2 : EngineState),
      rows1.map Prod.fst = rows2.map Prod.fst →
      st1.current_position = st2.current_position →
      st1.days_held = st2.days_held →
      (runFrom config st1 rows1).map
          (fun pr => (pr.2.position, pr.2.days_held)) =
        (runFrom config st2 rows2).map
          (fun pr => (pr.2.position, pr.2.days_held))
  | [], [], _, _, _, _, _ => rfl
  | [], (_, _) :: _, _, _, hm, _, _ => by simp at hm
  | (_, _) :: _, [], _, _, hm, _, _ => by simp at hm
  | (a1, b1) :: r1, (a2, b2) :: r2, st1, st2, hm, hpos, hdh => by
    simp only [List.map_cons, List.cons.injEq] at hm
    obtain ⟨ha, htl⟩ := hm
    subst ha
    have hsd := step_pos_days_eq config st1 st2 a1 b1 b2 hpos hdh
    have hhead : ((step config st1 a1 b1).2.position,
        (step config st1 a1 b1).2.days_held) =
        ((step config st2 a1 b2).2.position,
          (step config st2 a1 b2).2.days_held) := by
      rw [step_position, step_days_held, step_position, step_days_held,
        hsd.1, hsd.2]
    have htail := runFrom_pos_days_eq config r1 r2
      (step config st1 a1 b1).1 (step config st2 a1 b2).1 htl hsd.1 hsd.2
    simp only [runFrom, List.map_cons]
    rw [hhead, htail]

/-- C2 counterexample: with signal constant at 2 for 30 dates, constant
spread 100, `entry_threshold = 3/2`, `exit_threshold = 3/4` and
`max_holding_days = 5`, the reported `n_trades` is 5, not 6 as claimed — a
cycle is six days long (the entry date plus five held days), so thirty days
hold exactly five cycles. -/
theorem max_holding_trades_counterexample :
    (run_backtest c2Signal (c2SpreadConst 100)
        (some holdFiveConfig)).toOption.map BacktestResult.nTrades ≠ some 6 ∧
    (run_backtest c2Signal (c2SpreadConst 100)
        (some holdFiveConfig)).toOption.map BacktestResult.nTrades = some 5 := by
  constructor <;> decide

/-- C2 corrected: with signal constant at 2 for 30 consecutive aligned
dates, any constant spread, `entry_threshold = 3/2`, `exit_threshold = 3/4`
and `max_holding_days = 5`, the engine walk of `run_backtest` opens a
position on day 1, forcibly exits on day 6 regardless of signal, reopens on
day 7, exits on day 12, and so on in six-day cycles, with `days_held`
resetting to 0 at each new entry and the reported `n_trades` equal to 5
(five full cycles fit in thirty days). -/
theorem max_holding_cycles (s : ℚ) :
    (runRecords holdFiveConfig (List.replicate 30 (2, s))).map
        (fun r => (r.position, r.days_held)) = c2Expected ∧
    n_trades (runRecords holdFiveConfig (List.replicate 30 (2, s))) = 5 := by
  have hsig : (List.replicate 30 ((2 : ℚ), s)).map Prod.fst =
      (List.replicate 30 ((2 : ℚ), (100 : ℚ))).map Prod.fst := by
    simp [List.map_replicate]
  have hpairs := runFrom_pos_days_eq holdFiveConfig
    (List.replicate 30 ((2 : ℚ), s)) (List.replicate 30 ((2 : ℚ), (100 : ℚ)))
    initState initState hsig rfl rfl
  have hconc : (runFrom holdFiveConfig initState
      (List.replicate 30 ((2 : ℚ), (100 : ℚ)))).map
      (fun pr => (pr.2.position, pr.2.days_held)) = c2Expected := by
    decide
  have hrecpairs : (runRecords holdFiveConfig
      (List.replicate 30 ((2 : ℚ), s))).map
      (fun r => (r.position, r.days_held)) = c2Expected := by
    rw [runRecords, List.map_map]
    exact hpairs.trans hconc
  refine ⟨hrecpairs, ?_⟩
  unfold n_trades
  have hposmap : (runRecords holdFiveConfig
      (List.replicate 30 ((2 : ℚ), s))).map DayRecord.position =
      c2Expected.map Prod.fst := by
    have hm : (runRecords holdFiveConfig
        (List.replicate 30 ((2 : ℚ), s))).map DayRecord.position =
        ((runRecords holdFiveConfig
          (List.replicate 30 ((2 : ℚ), s))).map
          (fun r => (r.position, r.days_held))).map Prod.fst := by
      rw [List.map_map]
      rfl
    rw [hm, hrecpairs]
  rw [hposmap]
  decide

/-! ### Counterexample for the literal claim C3 -/

/-- C3 counterexample: on the zero-cost run `c3Signal`/`c3Spread` the first
trade has summed P&L exactly zero, so the accumulation loop never records
it; the code reports hit rate `1` while the claimed formula (positive trades
over all trades) gives `1/2`. -/
theorem hit_rate_claim_counterexample :
    (run_backtest c3Signal c3Spread (some c3Config)).toOption.map
      (fun res => (compute_performance_metrics (metricRows res)).hit_rate) ≠
    (run_backtest c3Signal c3Spread (some c3Config)).toOption.map
      (fun res => specHitRate ((metricRows res).map fun r =>
        (r.position, r.net_pnl))) := by
  decide

/-! ### Witnesses instantiating the claims with hypotheses -/

theorem eq_ok_of_toOption {ε α : Type} (e : Except ε α) (a : α)
    (h : e.toOption = some a) : e = Except.ok a := by
  cases e with
  | error _ => simp [Except.toOption] at h
  | ok b =>
    simp only [Except.toOption, Option.some.injEq] at h
    rw [h]

/-- Witness for C1 at the two-date run, date index 1. -/
theorem spread_pnl_accrual_witness :
    run_backtest twoDaySignal twoDaySpread none = Except.ok twoDayRes ∧
    1 < twoDayRes.records.length ∧
    (((twoDayRes.records.getD 1 default).spread_pnl =
      if prevPosition (twoDayRes.records.map DayRecord.position) 1 = 0 then 0
      else
        -((prevPosition (twoDayRes.records.map DayRecord.position) 1 : ℤ) : ℚ) *
          ((twoDayRes.records.getD 1 default).spread -
            (twoDayRes.records.getD
              (entryIdx (twoDayRes.records.map DayRecord.position) 1)
              default).spread) *
          ((none : Option BacktestConfig).getD {}).dv01_per_million *
          ((none : Option BacktestConfig).getD {}).position_size) ∧
    (prevPosition (twoDayRes.records.map DayRecord.position) 1 = 0 →
      (twoDayRes.records.getD 1 default).spread_pnl = 0)) := by
  have h1 : (run_backtest twoDaySignal twoDaySpread none).toOption =
      some twoDayRes := by decide
  have h2 := eq_ok_of_toOption _ _ h1
  exact ⟨h2, by decide,
    spread_pnl_accrual twoDaySignal twoDaySpread none twoDayRes h2 1
      (by decide)⟩

/-- Witness for C6 at the two-date run, date index 0 (the entry date). -/
theorem cost_mutual_exclusivity_witness :
    run_backtest twoDaySignal twoDaySpread none = Except.ok twoDayRes ∧
    0 < twoDayRes.records.length ∧
    (((twoDayRes.records.getD 0 default).entry_cost ≠ 0 →
        prevPosition (twoDayRes.records.map DayRecord.position) 0 = 0) ∧
      ((twoDayRes.records.getD 0 default).exit_cost ≠ 0 →
        prevPosition (twoDayRes.records.map DayRecord.position) 0 ≠ 0) ∧
      ((twoDayRes.records.getD 0 default).entry_cost = 0 ∨
        (twoDayRes.records.getD 0 default).exit_cost = 0)) := by
  have h1 : (run_backtest twoDaySignal twoDaySpread none).toOption =
      some twoDayRes := by decide
  have h2 := eq_ok_of_toOption _ _ h1
  exact ⟨h2, by decide,
    cost_mutual_exclusivity twoDaySignal twoDaySpread none twoDayRes h2 0
      (by decide)⟩

/-- Witness for C7 at the two-date run, date index 1. -/
theorem pnl_decomposition_witness :
    run_backtest twoDaySignal twoDaySpread none = Except.ok twoDayRes ∧
    1 < twoDayRes.records.length ∧
    ((twoDayRes.records.getD 1 default).net_pnl =
      (twoDayRes.records.getD 1 default).spread_pnl -
        (twoDayRes.records.getD 1 default).cost ∧
    twoDayRes.cumulative.getD 1 0 =
      ((twoDayRes.records.map DayRecord.net_pnl).take 2).sum) := by
  have h1 : (run_backtest twoDaySignal twoDaySpread none).toOption =
      some twoDayRes := by decide
  have h2 := eq_ok_of_toOption _ _ h1
  exact ⟨h2, by decide,
    pnl_decomposition twoDaySignal twoDaySpread none twoDayRes h2 1
      (by decide)⟩

/-- Witness for C8 at the two-date run under the five-day holding limit,
date index 1. -/
theorem max_holding_days_enforced_witness :
    run_backtest twoDaySignal twoDaySpread (some holdFiveConfig) =
      Except.ok twoDayHoldRes ∧
    ((some holdFiveConfig).getD {}).max_holding_days = some 5 ∧
    1 < twoDayHoldRes.records.length ∧
    ((¬ ((twoDayHoldRes.records.getD 1 default).position ≠ 0 ∧
        (twoDayHoldRes.records.getD 1 default).days_held > 5)) ∧
    (prevPosition (twoDayHoldRes.records.map DayRecord.position) 1 ≠ 0 →
      ((twoDayHoldRes.records.getD 1 default).position = 0 ↔
        (|(twoDayHoldRes.records.getD 1 default).signal| <
            ((some holdFiveConfig).getD {}).exit_threshold ∨
          (if (1 : ℕ) = 0 then 0
           else (twoDayHoldRes.records.getD (1 - 1) default).days_held) + 1
            ≥ 5)))) := by
  have h1 : (run_backtest twoDaySignal twoDaySpread
      (some holdFiveConfig)).toOption = some twoDayHoldRes := by
    decide
  have h2 := eq_ok_of_toOption _ _ h1
  exact ⟨h2, rfl, by decide,
    max_holding_days_enforced twoDaySignal twoDaySpread (some holdFiveConfig)
      twoDayHoldRes 5 h2 rfl 1 (by decide)⟩

/-- Witness for the amended C3 at the one-date flat run. -/
theorem hit_rate_characterization_witness :
    run_backtest flatSignalSeries flatSpreadSeries none = Except.ok flatRes ∧
    (compute_performance_metrics (metricRows flatRes)).hit_rate =
      (if ((segmentSums ((metricRows flatRes).map fun r =>
            (r.position, r.net_pnl))).filter (fun x => decide (x ≠ 0))).length
          = 0 then 0
      else
        (((segmentSums ((metricRows flatRes).map fun r =>
              (r.position, r.net_pnl))).filter
            (fun x => decide (0 < x))).length : ℚ) /
          ((segmentSums ((metricRows flatRes).map fun r =>
              (r.position, r.net_pnl))).filter
            (fun x => decide (x ≠ 0))).length) := by
  have h1 : (run_backtest flatSignalSeries flatSpreadSeries none).toOption =
      some flatRes := by decide
  have h2 := eq_ok_of_toOption _ _ h1
  exact ⟨h2,
    hit_rate_characterization flatSignalSeries flatSpreadSeries none
      flatRes h2⟩

/-- Witness for C9 at a one-row input with a single losing day. -/
theorem sortino_ratio_cases_witness :
    oneLossRows ≠ [] ∧
    (compute_performance_metrics oneLossRows).sortino_ratio =
      (if (oneLossRows.map MetricRow.net_pnl).filter
          (fun x => decide (x < 0)) = []
      then (compute_performance_metrics oneLossRows).sharpe_ratio
      else if sampleVar ((oneLossRows.map MetricRow.net_pnl).filter
          (fun x => decide (x < 0))) = 0
      then 0
      else
        (((listMean (oneLossRows.map MetricRow.net_pnl) : ℚ) : ℝ) /
            Real.sqrt
              ((sampleVar ((oneLossRows.map MetricRow.net_pnl).filter
                (fun x => decide (x < 0))) : ℚ) : ℝ)) *
          Real.sqrt 252) :=
  ⟨by decide,
    sortino_ratio_cases oneLossRows (by decide)⟩

end MacroCredit
